import Mathlib

/-!
# Verification of the CopyAnime media relocation scripts

A shallow embedding of `src/copy_files.py` (class `CopyMedia`) and the
notification helper of `src/copy-files.py`.  Python's `re` module is embedded
by a small executable regular-expression engine covering the construct subset
used by the configuration patterns of this program: literal characters, `.`,
greedy `*`, capture groups `( )`, escapes `\c`, and a leading `^` anchor
(redundant under `re.match`, which is anchored at the start).  Filesystem
effects (`shutil.move`, `os.makedirs`, `os.path.exists`) are modelled by an
explicit state of existing directories and a log of performed moves, with an
environment oracle deciding whether a given OS-level move succeeds.
-/

namespace CopyAnime

/-! ## Path helpers (`os.path.join`, `os.path.split`) -/

/-- Whether a path begins with the separator, `b.startswith('/')`. -/
def startsWithSlash (s : String) : Bool :=
  match s.data with
  | '/' :: _ => true
  | _ => false

/-- Whether a path ends with the separator, `a.endswith('/')`. -/
def endsWithSlash (s : String) : Bool :=
  match s.data.getLast? with
  | some '/' => true
  | _ => false

/-- `os.path.join(a, b)` for two components: `b` wins when absolute, otherwise
the parts are glued with a single separator. -/
def pathJoin (a b : String) : String :=
  if startsWithSlash b then b
  else if a = "" ∨ endsWithSlash a then a ++ b
  else a ++ "/" ++ b

/-- `os.path.split(p)`: split at the final slash; the tail is everything after
the last `/`, the head is the rest with trailing slashes stripped unless the
head consists only of slashes. -/
def pathSplit (p : String) : String × String :=
  let cs := p.data
  let tl := (cs.reverse.takeWhile (fun c => c ≠ '/')).reverse
  let hd := cs.take (cs.length - tl.length)
  let hd' := if hd.all (fun c => c = '/') then hd
             else (hd.reverse.dropWhile (fun c => c = '/')).reverse
  (String.mk hd', String.mk tl)

/-- The final path component, `os.path.split(p)[1]`. -/
def basename (p : String) : String := (pathSplit p).2

/-! ## A small regular-expression engine for the `re` subset this program uses -/

/-- Abstract syntax of the supported regular-expression subset. -/
inductive Regex where
  | eps : Regex
  | char : Char → Regex
  | dot : Regex
  | seq : Regex → Regex → Regex
  | star : Regex → Regex
  | group : Nat → Regex → Regex
  deriving Repr, DecidableEq

/-- Recursive-descent translation of a pattern string into `Regex`.  Parses a
sequence of atoms (literal, `.`, escape, group) each optionally followed by
`*`; stops at `)` or end of input.  Groups are numbered from `g` in order of
their opening parenthesis, as in Python.  Fuel makes the recursion structural;
`none` stands for Python's `re.error` on patterns outside the subset. -/
def parseSeq : Nat → List Char → Nat → Option (Regex × List Char × Nat)
  | 0, _, _ => none
  | _ + 1, [], g => some (.eps, [], g)
  | fuel + 1, c :: rest, g =>
    if c = ')' then some (.eps, c :: rest, g)
    else
      let atom : Option (Regex × List Char × Nat) :=
        if c = '(' then
          match parseSeq fuel rest (g + 1) with
          | some (r, ')' :: rest1, g1) => some (.group g r, rest1, g1)
          | _ => none
        else if c = '.' then some (.dot, rest, g)
        else if c = '\\' then
          match rest with
          | d :: rest1 => if d.isAlphanum then none else some (.char d, rest1, g)
          | [] => none
        else if c = '*' ∨ c = '|' ∨ c = '[' ∨ c = '+' ∨ c = '?' ∨ c = '{' ∨
                c = '^' ∨ c = '$' then none
        else some (.char c, rest, g)
      match atom with
      | none => none
      | some (a, rest1, g1) =>
        let next := match rest1 with
          | '*' :: rest2 => (Regex.star a, rest2)
          | _ => (a, rest1)
        match parseSeq fuel next.2 g1 with
        | none => none
        | some (b, rest3, g3) => some (.seq next.1 b, rest3, g3)

/-- Parse a whole pattern.  A leading `^` is dropped: under `re.match` the
match is anchored at the start of the string anyway. -/
def parseRegex (pat : String) : Option Regex :=
  let cs := match pat.data with
    | '^' :: rest => rest
    | cs => cs
  match parseSeq (cs.length + 1) cs 1 with
  | some (r, [], _) => some r
  | _ => none

/-- Backtracking matcher.  `mtch fuel r s` lists every way `r` can consume a
prefix of `s`, as pairs of (remaining input, captured groups), in Python's
backtracking priority order: for `star`, more repetitions are tried first
(greedy).  An empty-progress repetition contributes no further iteration,
matching Python's refusal to loop on empty matches.  The head of the list is
the match `re` reports. -/
def mtch : Nat → Regex → List Char → List (List Char × List (Nat × String))
  | 0, _, _ => []
  | fuel + 1, r, s =>
    match r with
    | .eps => [(s, [])]
    | .char c =>
      match s with
      | [] => []
      | x :: rest => if x = c then [(rest, [])] else []
    | .dot =>
      match s with
      | [] => []
      | x :: rest => if x = '\n' then [] else [(rest, [])]
    | .seq a b =>
      (mtch fuel a s).flatMap (fun p =>
        (mtch fuel b p.1).map (fun q => (q.1, p.2 ++ q.2)))
    | .group n a =>
      (mtch fuel a s).map (fun p =>
        (p.1, p.2 ++ [(n, String.mk (s.take (s.length - p.1.length)))]))
    | .star a =>
      ((mtch fuel a s).flatMap (fun p =>
        if p.1.length = s.length then []
        else (mtch fuel (.star a) p.1).map (fun q => (q.1, p.2 ++ q.2))))
      ++ [(s, [])]

/-- Size of a regex term, used to compute a sufficient fuel. -/
def Regex.size : Regex → Nat
  | .eps => 1
  | .char _ => 1
  | .dot => 1
  | .seq a b => a.size + b.size + 1
  | .star a => a.size + 1
  | .group _ a => a.size + 1

/-- Fuel bound generous enough for the patterns of this program: recursion
depth is at most the regex size times the number of characters consumed. -/
def matchFuel (rSize sLen : Nat) : Nat := (sLen + 2) * (rSize + 2)

/-- `re.match(pat, s)`: anchored-at-start match.  Returns the number of
characters consumed and the captured groups of the highest-priority match, or
`none` when the pattern does not match at the start (or is outside the parsed
subset, where Python would instead raise `re.error`). -/
def reMatch (pat s : String) : Option (Nat × List (Nat × String)) :=
  match parseRegex pat with
  | none => none
  | some r =>
    match mtch (matchFuel r.size s.length) r s.data with
    | [] => none
    | p :: _ => some (s.length - p.1.length, p.2)

/-- Truthiness of `re.match(pat, s)` as used in `if re.match(...)`. -/
def reMatches (pat s : String) : Bool := (reMatch pat s).isSome

/-- Last captured string of group `n` (inside a repetition Python keeps the
last occurrence). -/
def capLookup (caps : List (Nat × String)) (n : Nat) : Option String :=
  ((caps.filter (fun p => p.1 = n)).map (fun p => p.2)).getLast?

/-- Expansion of a `re.sub` replacement template: `\«digit»` is a group
reference, every other character — including `$` — is literal.  A reference to
a group with no capture expands to the empty string. -/
def expandTemplate (caps : List (Nat × String)) : List Char → List Char
  | [] => []
  | '\\' :: d :: rest =>
    if d.isDigit then
      ((capLookup caps (d.toNat - '0'.toNat)).getD "").data
        ++ expandTemplate caps rest
    else '\\' :: d :: expandTemplate caps rest
  | c :: rest => c :: expandTemplate caps rest

/-- Scanning loop of `re.sub`: at each position try a match; on a non-empty
match emit the expanded template and continue after it; on an empty match emit
the template, copy one character and advance; otherwise copy one character. -/
def reSubGo (r : Regex) (tmpl : List Char) : Nat → List Char → List Char
  | 0, s => s
  | fuel + 1, s =>
    match mtch (matchFuel r.size s.length) r s with
    | p :: _ =>
      let len := s.length - p.1.length
      if len = 0 then
        match s with
        | [] => expandTemplate p.2 tmpl
        | c :: rest => expandTemplate p.2 tmpl ++ c :: reSubGo r tmpl fuel rest
      else expandTemplate p.2 tmpl ++ reSubGo r tmpl fuel p.1
    | [] =>
      match s with
      | [] => []
      | c :: rest => c :: reSubGo r tmpl fuel rest

/-- `re.sub(pat, repl, s)`: replace every non-overlapping occurrence of `pat`
in `s` by the expanded `repl`.  On a pattern outside the subset (`re.error`
in Python) the input is returned unchanged. -/
def reSub (pat repl s : String) : String :=
  match parseRegex pat with
  | none => s
  | some r => String.mk (reSubGo r repl.data (s.length + 1 + pat.length) s.data)

/-! ## Data model

A configured series entry as it appears after `validate_series` has checked it:
the required keys `name` and `regex` are present, `replace` and `destination`
may be absent. -/

structure ShowEntry where
  name : String
  regex : String
  replace : Option String := none
  destination : Option String := none
  deriving Repr, DecidableEq

/-- A raw series entry as read from the JSON configuration, before validation:
any key may be missing. -/
structure RawShow where
  name : Option String := none
  regex : Option String := none
  replace : Option String := none
  destination : Option String := none
  deriving Repr, DecidableEq

/-- The keys of the JSON configuration file that `process_configs` reads. -/
structure RawConfig where
  scanDir : Option String := none
  seriesDir : Option String := none
  movieDir : Option String := none
  series : Option (List RawShow) := none
  deriving Repr, DecidableEq

/-- The constructor arguments of `CopyMedia` that matter to the pipeline
(command-line overrides and the optional single file). -/
structure InitArgs where
  file : Option String := none
  scandir : Option String := none
  seriesdir : Option String := none
  moviedir : Option String := none
  ifttt_url : Option String := none
  deriving Repr, DecidableEq

/-- Python exceptions raised during configuration processing. -/
inductive PyErr where
  | keyError : String → PyErr
  | configurationError : String → PyErr
  deriving Repr, DecidableEq

/-- Exceptions escaping `execute`: a failed `shutil.move`, an OS error from
`makedirs`, or an exception from the `tmdb.is_movie` collaborator. -/
inductive RunErr where
  | moveFailed : String → String → RunErr
  | osError : String → RunErr
  | lookupError : String → RunErr
  | pyErr : PyErr → RunErr
  deriving Repr, DecidableEq

instance {ε α : Type} [DecidableEq ε] [DecidableEq α] : DecidableEq (Except ε α) :=
  fun a b =>
    match a, b with
    | .error x, .error y =>
      if h : x = y then isTrue (by rw [h]) else isFalse (fun hh => h (Except.error.inj hh))
    | .error _, .ok _ => isFalse (fun hh => Except.noConfusion hh)
    | .ok _, .error _ => isFalse (fun hh => Except.noConfusion hh)
    | .ok x, .ok y =>
      if h : x = y then isTrue (by rw [h]) else isFalse (fun hh => h (Except.ok.inj hh))

/-- Filesystem-effect state of a run: the directories that exist, and the
`shutil.move` operations performed so far, in order, as (source, destination)
full paths. -/
structure RunState where
  dirs : List String := []
  moves : List (String × String) := []
  deriving Repr, DecidableEq

/-- The environment abstracting the operating system and the network
collaborators: whether a given `shutil.move` succeeds, the verdict (or
exception) of `tmdb.is_movie`, and the result of listing the scan directory
restricted to plain files. -/
structure Env where
  moveOk : String → String → Bool
  isMovie : String → Except String Bool
  scanFiles : List String

/-- Python truthiness of an optional string: `None` and `''` are falsy. -/
def truthy : Option String → Bool
  | none => false
  | some s => s ≠ ""

/-- `if cli is None and key in config: cli = config[key]` — the resolution of
one setting from a command-line override and the config file. -/
def resolveOpt (cli cfgv : Option String) : Option String :=
  match cli with
  | none => cfgv
  | some v => some v

/-! ## `CopyMedia.match_files` (src/copy_files.py lines 254-274) -/

/-- The inner loop of `match_files`: the first configured entry whose `regex`
matches the filename under `re.match`, if any (`break` after the first hit). -/
def matchFile (series : List ShowEntry) (f : String) : Option ShowEntry :=
  series.find? (fun e => reMatches e.regex f)

/-- `CopyMedia.match_files`: partition the file list into `(filename, entry)`
matches (first matching entry wins) and unmatched filenames, preserving input
order in both outputs. -/
def match_files : List String → List ShowEntry → List (String × ShowEntry) × List String
  | [], _ => ([], [])
  | f :: rest, series =>
    let r := match_files rest series
    match matchFile series f with
    | some e => ((f, e) :: r.1, r.2)
    | none => (r.1, f :: r.2)

/-! ## `CopyMedia.move_series` (src/copy_files.py lines 214-252) -/

/-- The destination filename of one match: when a `replace` attribute is
present, the result of the single `re.sub` call with the entry's match
`regex` as search expression; otherwise the filename unchanged. -/
def destFileName (e : ShowEntry) (file_name : String) : String :=
  match e.replace with
  | some rep => reSub e.regex rep file_name
  | none => file_name

/-- The destination directory of one match:
`join(move_dir, entry['destination'])` when present, else
`join(move_dir, entry['name'])`. -/
def destDir (move_dir : String) (e : ShowEntry) : String :=
  match e.destination with
  | some d => pathJoin move_dir d
  | none => pathJoin move_dir e.name

/-- Insertion into a Python `set`, modelled as a duplicate-free list. -/
def insertDir (d : String) (ds : List String) : List String :=
  if d ∈ ds then ds else d :: ds

/-- `os.path.exists` over the modelled directory state. -/
def path_exists (dirs : List String) (p : String) : Bool := p ∈ dirs

/-- The chain of proper ancestors of a path, via repeated `os.path.split`. -/
def ancestorsGo : Nat → String → List String
  | 0, _ => []
  | fuel + 1, p =>
    let hd := (pathSplit p).1
    if hd = "" ∨ hd = p then [] else hd :: ancestorsGo fuel hd

/-- `os.makedirs(p)`: raises `FileExistsError` when `p` already exists,
otherwise creates `p` together with its missing ancestors. -/
def makedirs (dirs : List String) (p : String) : Except String (List String) :=
  if path_exists dirs p then .error "FileExistsError"
  else .ok ((p :: ancestorsGo p.length p).foldl (fun acc d => insertDir d acc) dirs)

/-- Lines 239-241 of src/copy_files.py: create the destination directory only
when it does not already exist. -/
def ensure_dest (dirs : List String) (p : String) : Except String (List String) :=
  if path_exists dirs p then .ok dirs else makedirs dirs p

/-- One iteration plus the rest of the `move_series` loop.  Every step
computes the renamed destination filename, the destination directory, ensures
the directory exists, and performs the move; a failing move raises — there is
no exception handler in the source, so the loop stops, returning the state
reached so far and the propagating exception. -/
def moveSeriesLoop (env : Env) :
    List (String × ShowEntry) → String → String → RunState → List String →
    RunState × Except RunErr (List String)
  | [], _, _, st, dests => (st, .ok dests)
  | (file_name, e) :: rest, move_dir, start_dir, st, dests =>
    let dfn := destFileName e file_name
    let dest := destDir move_dir e
    match ensure_dest st.dirs dest with
    | .error msg => (st, .error (.osError msg))
    | .ok dirs1 =>
      let src := pathJoin start_dir file_name
      let dst := pathJoin dest dfn
      if env.moveOk src dst then
        moveSeriesLoop env rest move_dir start_dir
          ⟨dirs1, st.moves ++ [(src, dst)]⟩ (insertDir dest dests)
      else (⟨dirs1, st.moves⟩, .error (.moveFailed src dst))

/-- `CopyMedia.move_series`: relocate each match, starting from an empty set
of recorded destinations. -/
def move_series (env : Env) (ms : List (String × ShowEntry))
    (move_dir start_dir : String) (st : RunState) :
    RunState × Except RunErr (List String) :=
  moveSeriesLoop env ms move_dir start_dir st []

/-! ## `CopyMedia.move_movies` (src/copy_files.py lines 201-212) -/

/-- `CopyMedia.move_movies`: move each movie file flat into `move_dir` under
its original name; a failing move raises and stops the loop. -/
def move_movies (env : Env) :
    List String → String → String → RunState → RunState × Except RunErr Unit
  | [], _, _, st => (st, .ok ())
  | f :: rest, move_dir, start_dir, st =>
    let src := pathJoin start_dir f
    let dst := pathJoin move_dir f
    if env.moveOk src dst then
      move_movies env rest move_dir start_dir ⟨st.dirs, st.moves ++ [(src, dst)]⟩
    else (st, .error (.moveFailed src dst))

/-! ## `send_notification` (src/copy-files.py lines 130-146) -/

/-- `send_notification`: when there is at least one match, join the matched
entries' names with the literal `" and "` and POST the string; the returned
list holds the strings actually posted (empty list: no call made). -/
def send_notification (ms : List (String × ShowEntry)) : List String :=
  if ms.isEmpty then []
  else [String.intercalate " and " (ms.map (fun p => p.2.name))]

/-! ## `CopyMedia.execute` (src/copy_files.py lines 74-101) -/

/-- The list comprehension
`[file for file in files if tmdb.is_movie(file, self.tmdb)]`: evaluated left
to right, the first exception from the collaborator propagates. -/
def filterMovies (env : Env) : List String → Except String (List String)
  | [] => .ok []
  | f :: rest =>
    match env.isMovie f with
    | .error msg => .error msg
    | .ok b =>
      match filterMovies env rest with
      | .error msg => .error msg
      | .ok r => .ok (if b then f :: r else r)

/-- The resolved fields `CopyMedia.execute` reads from `self`. -/
structure CopyMediaCfg where
  file : Option String := none
  scandir : String
  seriesdir : String
  moviedir : Option String := none
  ifttt_url : Option String := none
  series : List ShowEntry
  deriving Repr, DecidableEq

/-- The observable outcome of one `execute` call: the filesystem effects, the
notification strings posted, and whether an exception escaped. -/
structure ExecOut where
  state : RunState
  notifications : List String
  result : Except RunErr Unit
  deriving Repr, DecidableEq

/-- The file list `execute` builds first: when a single file was given, only
its final path component (`split(self.file)[1]`); otherwise the scan-directory
listing restricted to plain files. -/
def candidateFiles (env : Env) (c : CopyMediaCfg) : List String :=
  match c.file with
  | some p => [(pathSplit p).2]
  | none => env.scanFiles

/-- `CopyMedia.execute`: when a single file was given, only its final path
component enters the file list (the directory part of the given path is
dropped by `split` and never used again); otherwise the scan listing is used.
Matches are relocated by `move_series` from `self.scandir`, followed by the
notification when an IFTTT url is configured; otherwise, when there are
unmatched files and a movie directory, the movie verdicts are collected (an
exception in the comprehension propagates) and verdict-true files are moved
flat by `move_movies`. -/
def execute (env : Env) (c : CopyMediaCfg) : ExecOut :=
  let files : List String := candidateFiles env c
  let mm := match_files files c.series
  if ¬ mm.1.isEmpty then
    let r := move_series env mm.1 c.seriesdir c.scandir {}
    match r.2 with
    | .error e => ⟨r.1, [], .error e⟩
    | .ok _ =>
      match c.ifttt_url with
      | some _ => ⟨r.1, send_notification mm.1, .ok ()⟩
      | none => ⟨r.1, [], .ok ()⟩
  else
    match c.moviedir with
    | some md =>
      if ¬ mm.2.isEmpty then
        match filterMovies env files with
        | .error msg => ⟨{}, [], .error (.lookupError msg)⟩
        | .ok movie_files =>
          let r := move_movies env movie_files md c.scandir {}
          ⟨r.1, [], r.2⟩
      else ⟨{}, [], .ok ()⟩
    | none => ⟨{}, [], .ok ()⟩

/-! ## Configuration processing (src/copy_files.py lines 103-199) -/

/-- `CopyMedia.validate_series`: every entry must carry the keys `name` and
`regex`; the first missing key raises a `KeyError` naming it. -/
def validate_series : List RawShow → Except PyErr Bool
  | [] => .ok true
  | s :: rest =>
    if s.name.isNone then .error (.keyError "name")
    else if s.regex.isNone then .error (.keyError "regex")
    else validate_series rest

/-- The fields of `self` after `process_configs` returned successfully. -/
structure Resolved where
  file : Option String
  scandir : Option String
  seriesdir : Option String
  moviedir : Option String
  ifttt_url : Option String
  series : Option (List RawShow)
  deriving Repr, DecidableEq

/-- `CopyMedia.process_configs`: resolve the scan, series and movie
directories from overrides and the config file (the config's `scanDir` is
consulted only when no single file was given), raising `ConfigurationError`
for a missing scan source or missing destination roots, then validate the
configured series, whose `KeyError` propagates. -/
def process_configs (a : InitArgs) (cfg : RawConfig) : Except PyErr Resolved :=
  let scandir := if truthy a.file then a.scandir else resolveOpt a.scandir cfg.scanDir
  if ¬ truthy a.file ∧ ¬ truthy scandir then
    .error (.configurationError "Missing directory to scan.")
  else
    let seriesdir := resolveOpt a.seriesdir cfg.seriesDir
    let moviedir := resolveOpt a.moviedir cfg.movieDir
    if ¬ truthy seriesdir then
      .error (.configurationError "Missing destination series directory")
    else if ¬ truthy moviedir then
      .error (.configurationError "Missing destination movie directory")
    else
      match cfg.series with
      | some rules =>
        match validate_series rules with
        | .error e => .error e
        | .ok _ => .ok ⟨a.file, scandir, seriesdir, moviedir, a.ifttt_url, some rules⟩
      | none => .ok ⟨a.file, scandir, seriesdir, moviedir, a.ifttt_url, none⟩

/-- A validated raw entry seen as a `ShowEntry`.  The defaults are never
exercised after `validate_series` succeeded, since both keys are present. -/
def RawShow.toShowEntry (s : RawShow) : ShowEntry :=
  ⟨s.name.getD "", s.regex.getD "", s.replace, s.destination⟩

/-- The `execute`-relevant view of a resolved configuration.  The `getD`
defaults stand for field accesses that would raise in Python when the field is
`None`; no claim exercises them. -/
def Resolved.toCfg (r : Resolved) : CopyMediaCfg :=
  ⟨r.file, r.scandir.getD "", r.seriesdir.getD "", r.moviedir, r.ifttt_url,
   (r.series.getD []).map RawShow.toShowEntry⟩

/-- The whole pipeline of `CopyMedia.__init__` followed by `execute`:
configuration processing runs first and performs no filesystem I/O, so an
error there yields an untouched state and no notification. -/
def runCopyMedia (env : Env) (a : InitArgs) (cfg : RawConfig) : ExecOut :=
  match process_configs a cfg with
  | .error e => ⟨{}, [], .error (.pyErr e)⟩
  | .ok r => execute env r.toCfg

/-! ## Concrete instances used in the example scenarios -/

/-- Rule `A` of the first-match-wins scenario. -/
def ruleA : ShowEntry := { name := "A", regex := "^ShowA.*" }

/-- Rule `B` of the first-match-wins scenario. -/
def ruleB : ShowEntry := { name := "B", regex := "^ShowB.*" }

/-- The catch-all rule `C` of the first-match-wins scenario. -/
def ruleC : ShowEntry := { name := "C", regex := ".*" }

/-- An environment where every move succeeds and every lookup says
"not a movie". -/
def envTrivial : Env :=
  { moveOk := fun _ _ => true, isMovie := fun _ => .ok false, scanFiles := [] }

/-- Environment of the movie scenario: the lookup collaborator is stubbed to
answer true exactly for `Inception.2010.mkv`, which the scan finds. -/
def envInc : Env :=
  { moveOk := fun _ _ => true,
    isMovie := fun f => .ok (f = "Inception.2010.mkv"),
    scanFiles := ["Inception.2010.mkv"] }

/-- Environment where the movie-lookup collaborator raises on every call. -/
def envBoom : Env :=
  { moveOk := fun _ _ => true,
    isMovie := fun _ => .error "network error",
    scanFiles := ["Inception.2010.mkv"] }

/-- Environment where exactly the move of `f2.mkv` out of `/scan` fails. -/
def envFail2 : Env :=
  { moveOk := fun src _ => src ≠ "/scan/f2.mkv",
    isMovie := fun _ => .ok false,
    scanFiles := [] }

/-- A configuration with one series rule, a movie root, and no single file. -/
def cfgInc : CopyMediaCfg :=
  { scandir := "/scan", seriesdir := "/series", moviedir := some "/movies",
    series := [ruleA] }

/-- Configuration of the single-file scenario: three rules, IFTTT configured,
file given with a directory component. -/
def cfgSingle : CopyMediaCfg :=
  { file := some "/downloads/sub/ShowB.S02E03.mkv", scandir := "/scan",
    seriesdir := "/series", moviedir := some "/movies",
    ifttt_url := some "u", series := [ruleA, ruleB, ruleC] }

/-- A raw configuration whose only series rule lacks the `name` key. -/
def cfgBadRule : RawConfig :=
  { scanDir := some "/scan", seriesDir := some "/series",
    movieDir := some "/movies", series := some [{ regex := some ".*" }] }

/-- The rule of the rename round-trip scenario, with the spec's `$1`
replacement string. -/
def ruleDollar : ShowEntry :=
  { name := "X", regex := "(.*)\\.mkv", replace := some "$1.renamed.mkv" }

/-- The rename rule with Python's backreference syntax in the replacement. -/
def ruleBackref : ShowEntry :=
  { name := "X", regex := "(.*)\\.mkv", replace := some "\\1.renamed.mkv" }

/-- A rule named `Show A`, for the notification scenario. -/
def ruleShowA : ShowEntry := { name := "Show A", regex := "^A.*" }

/-- A rule named `Show B`, for the notification scenario. -/
def ruleShowB : ShowEntry := { name := "Show B", regex := "^B.*" }

/-- Environment where exactly the move of `f1.mkv` out of `/scan` fails. -/
def envFail1 : Env :=
  { moveOk := fun src _ => src ≠ "/scan/f1.mkv",
    isMovie := fun _ => .ok false,
    scanFiles := [] }

/-- A rule with both a rename replacement and a destination override. -/
def ruleRen : ShowEntry :=
  { name := "Show", regex := "(.*)\\.mkv", replace := some "\\1.renamed.mkv",
    destination := some "ShowDir" }

/-- Source path of one series match, as built by the `move_series` loop. -/
def seriesSrc (start_dir : String) (p : String × ShowEntry) : String :=
  pathJoin start_dir p.1

/-- Destination path of one series match, as built by the `move_series` loop. -/
def seriesDst (move_dir : String) (p : String × ShowEntry) : String :=
  pathJoin (destDir move_dir p.2) (destFileName p.2 p.1)

/-! ## Helper lemmas -/

theorem find?_first {α : Type} (p : α → Bool) :
    ∀ (l : List α) (a : α), l.find? p = some a →
      p a = true ∧ ∃ pre post, l = pre ++ a :: post ∧ ∀ x ∈ pre, p x = false := by
  intro l
  induction l with
  | nil => intro a h; simp [List.find?] at h
  | cons x xs ih =>
    intro a h
    rw [List.find?] at h
    cases hx : p x with
    | true =>
      rw [hx] at h
      cases h
      exact ⟨hx, [], xs, rfl, by intro y hy; simp at hy⟩
    | false =>
      rw [hx] at h
      obtain ⟨hpa, pre, post, hl, hpre⟩ := ih a h
      refine ⟨hpa, x :: pre, post, by rw [hl]; rfl, ?_⟩
      intro y hy
      rcases List.mem_cons.mp hy with h1 | h2
      · rw [h1]; exact hx
      · exact hpre y h2

theorem mem_insertDir_self (d : String) (ds : List String) : d ∈ insertDir d ds := by
  unfold insertDir
  split
  · assumption
  · exact List.mem_cons_self d ds

theorem mem_insertDir_of_mem {x : String} {ds : List String} (d : String)
    (h : x ∈ ds) : x ∈ insertDir d ds := by
  unfold insertDir
  split
  · exact h
  · exact List.mem_cons_of_mem d h

theorem nodup_insertDir (d : String) {ds : List String} (h : ds.Nodup) :
    (insertDir d ds).Nodup := by
  unfold insertDir
  split
  · exact h
  · exact List.nodup_cons.mpr ⟨by assumption, h⟩

theorem foldl_insertDir_mem {x : String} :
    ∀ (l acc : List String), x ∈ acc →
      x ∈ l.foldl (fun acc d => insertDir d acc) acc := by
  intro l
  induction l with
  | nil => intro acc h; simpa using h
  | cons d rest ih =>
    intro acc h
    exact ih (insertDir d acc) (mem_insertDir_of_mem d h)

theorem foldl_insertDir_nodup :
    ∀ (l acc : List String), acc.Nodup →
      (l.foldl (fun acc d => insertDir d acc) acc).Nodup := by
  intro l
  induction l with
  | nil => intro acc h; simpa using h
  | cons d rest ih =>
    intro acc h
    exact ih (insertDir d acc) (nodup_insertDir d h)

theorem ensure_dest_ok (dirs : List String) (p : String) :
    ∃ d1, ensure_dest dirs p = .ok d1 ∧ p ∈ d1 ∧ (dirs.Nodup → d1.Nodup) := by
  unfold ensure_dest
  split
  · next h =>
    refine ⟨dirs, rfl, ?_, fun h1 => h1⟩
    simpa [path_exists] using h
  · next h =>
    unfold makedirs
    rw [if_neg h]
    refine ⟨_, rfl, ?_, ?_⟩
    · rw [List.foldl_cons]
      exact foldl_insertDir_mem _ _ (mem_insertDir_self p dirs)
    · intro h1
      rw [List.foldl_cons]
      exact foldl_insertDir_nodup _ _ (nodup_insertDir p h1)

theorem moveSeriesLoop_moves_ok (env : Env) :
    ∀ (ms : List (String × ShowEntry)) (md sd : String) (st : RunState)
      (ds : List String),
      (∀ p ∈ ms, env.moveOk (seriesSrc sd p) (seriesDst md p) = true) →
      (moveSeriesLoop env ms md sd st ds).1.moves
          = st.moves ++ ms.map (fun p => (seriesSrc sd p, seriesDst md p))
      ∧ ∃ dests, (moveSeriesLoop env ms md sd st ds).2 = .ok dests := by
  intro ms
  induction ms with
  | nil =>
    intro md sd st ds _
    exact ⟨by simp [moveSeriesLoop], ds, rfl⟩
  | cons q rest ih =>
    intro md sd st ds h
    obtain ⟨f, e⟩ := q
    obtain ⟨d1, hd1, _, _⟩ := ensure_dest_ok st.dirs (destDir md e)
    have hq : env.moveOk (seriesSrc sd (f, e)) (seriesDst md (f, e)) = true :=
      h (f, e) (List.mem_cons_self _ _)
    have hstep : moveSeriesLoop env ((f, e) :: rest) md sd st ds
        = moveSeriesLoop env rest md sd
            ⟨d1, st.moves ++ [(seriesSrc sd (f, e), seriesDst md (f, e))]⟩
            (insertDir (destDir md e) ds) := by
      simp only [moveSeriesLoop, hd1, seriesSrc, seriesDst] at hq ⊢
      rw [if_pos hq]
    rw [hstep]
    obtain ⟨hm, dests, hr⟩ := ih md sd
      ⟨d1, st.moves ++ [(seriesSrc sd (f, e), seriesDst md (f, e))]⟩
      (insertDir (destDir md e) ds)
      (fun p hp => h p (List.mem_cons_of_mem _ hp))
    refine ⟨?_, dests, hr⟩
    rw [hm]
    simp

theorem moveSeriesLoop_abort (env : Env) :
    ∀ (pre : List (String × ShowEntry)) (q : String × ShowEntry)
      (post : List (String × ShowEntry)) (md sd : String) (st : RunState)
      (ds : List String),
      (∀ p ∈ pre, env.moveOk (seriesSrc sd p) (seriesDst md p) = true) →
      env.moveOk (seriesSrc sd q) (seriesDst md q) = false →
      (moveSeriesLoop env (pre ++ q :: post) md sd st ds).2
          = .error (.moveFailed (seriesSrc sd q) (seriesDst md q))
      ∧ (moveSeriesLoop env (pre ++ q :: post) md sd st ds).1.moves
          = st.moves ++ pre.map (fun p => (seriesSrc sd p, seriesDst md p)) := by
  intro pre
  induction pre with
  | nil =>
    intro q post md sd st ds _ hq
    obtain ⟨f, e⟩ := q
    obtain ⟨d1, hd1, _, _⟩ := ensure_dest_ok st.dirs (destDir md e)
    have hstep : moveSeriesLoop env ((f, e) :: post) md sd st ds
        = (⟨d1, st.moves⟩, .error (.moveFailed (seriesSrc sd (f, e)) (seriesDst md (f, e)))) := by
      simp only [moveSeriesLoop, hd1, seriesSrc, seriesDst] at hq ⊢
      rw [if_neg (by rw [hq]; exact Bool.false_ne_true)]
    rw [List.nil_append, hstep]
    exact ⟨rfl, by simp⟩
  | cons q0 rest ih =>
    intro q post md sd st ds h hq
    obtain ⟨f, e⟩ := q0
    obtain ⟨d1, hd1, _, _⟩ := ensure_dest_ok st.dirs (destDir md e)
    have h0 : env.moveOk (seriesSrc sd (f, e)) (seriesDst md (f, e)) = true :=
      h (f, e) (List.mem_cons_self _ _)
    have hstep : moveSeriesLoop env (((f, e) :: rest) ++ q :: post) md sd st ds
        = moveSeriesLoop env (rest ++ q :: post) md sd
            ⟨d1, st.moves ++ [(seriesSrc sd (f, e), seriesDst md (f, e))]⟩
            (insertDir (destDir md e) ds) := by
      simp only [List.cons_append, moveSeriesLoop, hd1, seriesSrc, seriesDst] at h0 ⊢
      rw [if_pos h0]
      rfl
    rw [hstep]
    obtain ⟨h1, h2⟩ := ih q post md sd
      ⟨d1, st.moves ++ [(seriesSrc sd (f, e), seriesDst md (f, e))]⟩
      (insertDir (destDir md e) ds)
      (fun p hp => h p (List.mem_cons_of_mem _ hp)) hq
    refine ⟨h1, ?_⟩
    rw [h2]
    simp

theorem moveSeriesLoop_src (env : Env) :
    ∀ (ms : List (String × ShowEntry)) (md sd : String) (st : RunState)
      (ds : List String) (m : String × String),
      m ∈ (moveSeriesLoop env ms md sd st ds).1.moves →
      m ∈ st.moves ∨ ∃ q ∈ ms, m.1 = pathJoin sd q.1 := by
  intro ms
  induction ms with
  | nil =>
    intro md sd st ds m hm
    simp only [moveSeriesLoop] at hm
    exact Or.inl hm
  | cons q rest ih =>
    intro md sd st ds m hm
    obtain ⟨f, e⟩ := q
    obtain ⟨d1, hd1, _, _⟩ := ensure_dest_ok st.dirs (destDir md e)
    simp only [moveSeriesLoop, hd1] at hm
    by_cases hmv : env.moveOk (pathJoin sd f)
        (pathJoin (destDir md e) (destFileName e f)) = true
    · rw [if_pos hmv] at hm
      rcases ih md sd ⟨d1, st.moves ++ [(pathJoin sd f, pathJoin (destDir md e) (destFileName e f))]⟩
          (insertDir (destDir md e) ds) m hm with h1 | h2
      · rcases List.mem_append.mp h1 with ha | hb
        · exact Or.inl ha
        · refine Or.inr ⟨(f, e), List.mem_cons_self _ _, ?_⟩
          simp at hb
          rw [hb]
      · obtain ⟨p, hp, hsrc⟩ := h2
        exact Or.inr ⟨p, List.mem_cons_of_mem _ hp, hsrc⟩
    · rw [if_neg hmv] at hm
      exact Or.inl hm

theorem move_movies_ok (env : Env) :
    ∀ (fs : List String) (md sd : String) (st : RunState),
      (∀ f ∈ fs, env.moveOk (pathJoin sd f) (pathJoin md f) = true) →
      (move_movies env fs md sd st).1.moves
          = st.moves ++ fs.map (fun f => (pathJoin sd f, pathJoin md f))
      ∧ (move_movies env fs md sd st).2 = .ok () := by
  intro fs
  induction fs with
  | nil =>
    intro md sd st _
    exact ⟨by simp [move_movies], rfl⟩
  | cons f rest ih =>
    intro md sd st h
    have hf : env.moveOk (pathJoin sd f) (pathJoin md f) = true :=
      h f (List.mem_cons_self _ _)
    have hstep : move_movies env (f :: rest) md sd st
        = move_movies env rest md sd ⟨st.dirs, st.moves ++ [(pathJoin sd f, pathJoin md f)]⟩ := by
      simp only [move_movies]
      rw [if_pos hf]
    rw [hstep]
    obtain ⟨h1, h2⟩ := ih md sd ⟨st.dirs, st.moves ++ [(pathJoin sd f, pathJoin md f)]⟩
      (fun g hg => h g (List.mem_cons_of_mem _ hg))
    refine ⟨?_, h2⟩
    rw [h1]
    simp

theorem move_movies_src (env : Env) :
    ∀ (fs : List String) (md sd : String) (st : RunState) (m : String × String),
      m ∈ (move_movies env fs md sd st).1.moves →
      m ∈ st.moves ∨ ∃ f ∈ fs, m.1 = pathJoin sd f := by
  intro fs
  induction fs with
  | nil =>
    intro md sd st m hm
    simp only [move_movies] at hm
    exact Or.inl hm
  | cons f rest ih =>
    intro md sd st m hm
    simp only [move_movies] at hm
    by_cases hmv : env.moveOk (pathJoin sd f) (pathJoin md f) = true
    · rw [if_pos hmv] at hm
      rcases ih md sd ⟨st.dirs, st.moves ++ [(pathJoin sd f, pathJoin md f)]⟩ m hm with h1 | h2
      · rcases List.mem_append.mp h1 with ha | hb
        · exact Or.inl ha
        · refine Or.inr ⟨f, List.mem_cons_self _ _, ?_⟩
          simp at hb
          rw [hb]
      · obtain ⟨g, hg, hsrc⟩ := h2
        exact Or.inr ⟨g, List.mem_cons_of_mem _ hg, hsrc⟩
    · rw [if_neg hmv] at hm
      exact Or.inl hm

theorem filterMovies_ok_mem (env : Env) :
    ∀ (fs mfs : List String), filterMovies env fs = .ok mfs →
      ∀ f, f ∈ mfs ↔ f ∈ fs ∧ env.isMovie f = .ok true := by
  intro fs
  induction fs with
  | nil =>
    intro mfs h f
    simp only [filterMovies] at h
    cases h
    simp
  | cons g rest ih =>
    intro mfs h f
    simp only [filterMovies] at h
    cases hg : env.isMovie g with
    | error msg => rw [hg] at h; cases h
    | ok b =>
      rw [hg] at h
      cases hr : filterMovies env rest with
      | error msg => rw [hr] at h; cases h
      | ok r =>
        rw [hr] at h
        cases h
        have hmem := ih r hr f
        cases b with
        | true =>
          simp only [if_true]
          constructor
          · intro hf
            beta_reduce
            rcases List.mem_cons.mp hf with h1 | h2
            · subst h1
              exact ⟨List.mem_cons_self _ _, hg⟩
            · obtain ⟨hm1, hm2⟩ := hmem.mp h2
              exact ⟨List.mem_cons_of_mem _ hm1, hm2⟩
          · intro ⟨hf, hmv⟩
            rcases List.mem_cons.mp hf with h1 | h2
            · rw [h1]; exact List.mem_cons_self _ _
            · exact List.mem_cons_of_mem _ (hmem.mpr ⟨h2, hmv⟩)
        | false =>
          rw [if_neg Bool.false_ne_true]
          constructor
          · intro hf
            obtain ⟨hm1, hm2⟩ := hmem.mp hf
            exact ⟨List.mem_cons_of_mem _ hm1, hm2⟩
          · intro ⟨hf, hmv⟩
            rcases List.mem_cons.mp hf with h1 | h2
            · rw [h1] at hmv
              rw [hmv] at hg
              cases hg
            · exact hmem.mpr ⟨h2, hmv⟩

theorem match_files_eq (series : List ShowEntry) :
    ∀ files : List String,
      match_files files series
        = (files.filterMap (fun f => (matchFile series f).map (fun e => (f, e))),
           files.filter (fun f => (matchFile series f).isNone)) := by
  intro files
  induction files with
  | nil => simp [match_files]
  | cons f rest ih =>
    simp only [match_files, ih]
    cases hf : matchFile series f with
    | some e => simp [List.filterMap_cons, List.filter_cons, hf]
    | none => simp [List.filterMap_cons, List.filter_cons, hf]

theorem mem_takeWhile_pred {p : Char → Bool} :
    ∀ (l : List Char) (x : Char), x ∈ l.takeWhile p → p x = true := by
  intro l
  induction l with
  | nil => intro x h; simp [List.takeWhile] at h
  | cons c rest ih =>
    intro x h
    rw [List.takeWhile] at h
    cases hc : p c with
    | true =>
      rw [hc] at h
      rcases List.mem_cons.mp h with h1 | h2
      · rw [h1]; exact hc
      · exact ih x h2
    | false => rw [hc] at h; simp at h

theorem takeWhile_eq_self_of {p : Char → Bool} :
    ∀ l : List Char, (∀ x ∈ l, p x = true) → l.takeWhile p = l := by
  intro l
  induction l with
  | nil => intro _; rfl
  | cons c rest ih =>
    intro h
    rw [List.takeWhile, h c (List.mem_cons_self _ _)]
    rw [ih (fun x hx => h x (List.mem_cons_of_mem _ hx))]

theorem basename_data (p : String) :
    (basename p).data = (p.data.reverse.takeWhile (fun c => c ≠ '/')).reverse := rfl

theorem basename_no_slash (p : String) :
    ∀ c ∈ (basename p).data, (fun c => decide (c ≠ '/')) c = true := by
  intro c hc
  rw [basename_data] at hc
  exact mem_takeWhile_pred _ c (List.mem_reverse.mp hc)

theorem basename_idem (p : String) : basename (basename p) = basename p := by
  have h : (basename p).data.reverse.takeWhile (fun c => c ≠ '/')
      = (basename p).data.reverse := by
    apply takeWhile_eq_self_of
    intro x hx
    exact basename_no_slash p x (List.mem_reverse.mp hx)
  have h2 : (basename (basename p)).data = (basename p).data := by
    rw [basename_data (basename p), h, List.reverse_reverse]
  exact String.ext h2

theorem mem_match_files_fst (series : List ShowEntry) (files : List String)
    (q : String × ShowEntry) (hq : q ∈ (match_files files series).1) :
    q.1 ∈ files := by
  rw [match_files_eq series files] at hq
  obtain ⟨f, hf, hmap⟩ := List.mem_filterMap.mp hq
  cases he : matchFile series f with
  | none => rw [he] at hmap; cases hmap
  | some e =>
    rw [he] at hmap
    cases Option.some.inj hmap
    exact hf

theorem validate_series_error_of_malformed :
    ∀ rules : List RawShow,
      (∃ r ∈ rules, r.name = none ∨ r.regex = none) →
      ∃ k, validate_series rules = .error (.keyError k) ∧ (k = "name" ∨ k = "regex") := by
  intro rules
  induction rules with
  | nil => intro ⟨r, hr, _⟩; simp at hr
  | cons s rest ih =>
    intro ⟨r, hr, hbad⟩
    cases hn : s.name with
    | none =>
      exact ⟨"name", by simp [validate_series, hn], Or.inl rfl⟩
    | some v =>
      cases hg : s.regex with
      | none =>
        exact ⟨"regex", by simp [validate_series, hn, hg], Or.inr rfl⟩
      | some w =>
        rcases List.mem_cons.mp hr with h1 | h2
        · exfalso
          rw [h1] at hbad
          rcases hbad with hb | hb
          · rw [hb] at hn; cases hn
          · rw [hb] at hg; cases hg
        · obtain ⟨k, hk, hor⟩ := ih ⟨r, h2, hbad⟩
          exact ⟨k, by simp [validate_series, hn, hg, hk], hor⟩


theorem destDir_getD (md : String) (e : ShowEntry) :
    destDir md e = pathJoin md (e.destination.getD e.name) := by
  unfold destDir
  cases e.destination <;> rfl

/-! ## The claims -/

/-- C1: for every filename and every ordered list of series rules,
`match_files` pairs each filename with at most one rule — the first rule in
configured order whose pattern matches the filename under the
anchored-at-start `re.match` — and places filenames matched by no rule in the
unmatched list instead of raising an error. -/
theorem classifier_first_match_wins (files : List String) (series : List ShowEntry) :
    match_files files series
        = (files.filterMap (fun f => (matchFile series f).map (fun e => (f, e))),
           files.filter (fun f => (matchFile series f).isNone))
    ∧ ∀ f e, matchFile series f = some e →
        reMatches e.regex f = true
        ∧ ∃ pre post, series = pre ++ e :: post
            ∧ ∀ e1 ∈ pre, reMatches e1.regex f = false := by
  refine ⟨match_files_eq series files, ?_⟩
  intro f e h
  have h2 : series.find? (fun e1 : ShowEntry => reMatches e1.regex f) = some e := h
  obtain ⟨hp, pre, post, hl, hpre⟩ :=
    find?_first (fun e1 : ShowEntry => reMatches e1.regex f) series e h2
  exact ⟨hp, pre, post, hl, hpre⟩

/-- Witness for C1: on the spec's scenario (rules `A`, `B`, catch-all `C` and
file `ShowB.S02E03.mkv`) the classifier picks exactly rule `B`. -/
theorem classifier_first_match_wins_w :
    match_files ["ShowB.S02E03.mkv"] [ruleA, ruleB, ruleC]
        = ([("ShowB.S02E03.mkv", ruleB)], [])
    ∧ reMatches ruleB.regex "ShowB.S02E03.mkv" = true := by
  have h := classifier_first_match_wins ["ShowB.S02E03.mkv"] [ruleA, ruleB, ruleC]
  refine ⟨?_, (h.2 "ShowB.S02E03.mkv" ruleB (by decide)).1⟩
  rw [h.1]
  decide

/-- C2: for every batch of matches that `move_series` processes to completion,
the destination of each match is
`join(seriesDestinationRoot, rule.destination if present else rule.name)`
joined with the destination filename, which is the single `re.sub` of the
rule's replace string over the filename (search expression: the rule's match
pattern) when a replace attribute is present and the unchanged filename
otherwise. -/
theorem move_series_dest_paths (env : Env) (ms : List (String × ShowEntry))
    (md sd : String) (st : RunState)
    (h : ∀ p ∈ ms, env.moveOk (seriesSrc sd p) (seriesDst md p) = true) :
    (move_series env ms md sd st).1.moves
        = st.moves ++ ms.map (fun p =>
            (pathJoin sd p.1,
             pathJoin (pathJoin md (p.2.destination.getD p.2.name))
               (match p.2.replace with
                | some rep => reSub p.2.regex rep p.1
                | none => p.1))) := by
  have hm := (moveSeriesLoop_moves_ok env ms md sd st [] h).1
  unfold move_series
  rw [hm]
  simp only [seriesSrc, seriesDst, destDir_getD, destFileName]

/-- Witness for C2: a one-element batch against a rule with both a rename
replacement and a destination override. -/
theorem move_series_dest_paths_w :
    (move_series envTrivial [("Show.S01E01.mkv", ruleRen)] "/series" "/scan" {}).1.moves
        = ({} : RunState).moves ++ [("Show.S01E01.mkv", ruleRen)].map (fun p =>
            (pathJoin "/scan" p.1,
             pathJoin (pathJoin "/series" (p.2.destination.getD p.2.name))
               (match p.2.replace with
                | some rep => reSub p.2.regex rep p.1
                | none => p.1))) :=
  move_series_dest_paths envTrivial [("Show.S01E01.mkv", ruleRen)] "/series" "/scan" {}
    (fun _ _ => rfl)

/-- C6: the notification string joins the matched rules' names with the
literal `" and "` in match order without deduplication, two matches named
`Show A` and `Show B` give exactly `"Show A and Show B"`, and an empty match
list makes no call. -/
theorem notification_join_names (f1 f2 : String) (e1 e2 : ShowEntry) :
    send_notification [] = []
    ∧ (∀ ms : List (String × ShowEntry), ms ≠ [] →
        send_notification ms
          = [String.intercalate " and " (ms.map (fun p => p.2.name))])
    ∧ (e1.name = "Show A" → e2.name = "Show B" →
        send_notification [(f1, e1), (f2, e2)] = ["Show A and Show B"])
    ∧ (e1.name = "Show A" →
        send_notification [(f1, e1), (f2, e1)] = ["Show A and Show A"]) := by
  refine ⟨rfl, ?_, ?_, ?_⟩
  · intro ms hms
    unfold send_notification
    rw [if_neg (by simpa using hms)]
  · intro h1 h2
    unfold send_notification
    rw [if_neg (by simp)]
    simp only [List.map_cons, List.map_nil, h1, h2]
    decide
  · intro h1
    unfold send_notification
    rw [if_neg (by simp)]
    simp only [List.map_cons, List.map_nil, h1]
    decide

/-- Witness for C6: the join evaluated on two concrete matches. -/
theorem notification_join_names_w :
    send_notification [("a1.mkv", ruleShowA), ("b1.mkv", ruleShowB)]
        = ["Show A and Show B"]
    ∧ send_notification [("a1.mkv", ruleShowA), ("a2.mkv", ruleShowA)]
        = ["Show A and Show A"] := by
  have h := notification_join_names "a1.mkv" "b1.mkv" ruleShowA ruleShowB
  have h2 := notification_join_names "a1.mkv" "a2.mkv" ruleShowA ruleShowB
  exact ⟨h.2.2.1 rfl rfl, h2.2.2.2 rfl⟩

/-- C7: every filename classified as a movie is moved by `move_movies`
directly into the movie destination root under its original name — no
per-movie subfolder, no rename — and in the spec's scenario
`Inception.2010.mkv` ends up at `/movies/Inception.2010.mkv`. -/
theorem movies_moved_flat (env : Env) (fs : List String) (md sd : String)
    (st : RunState)
    (h : ∀ f ∈ fs, env.moveOk (pathJoin sd f) (pathJoin md f) = true) :
    (move_movies env fs md sd st).1.moves
        = st.moves ++ fs.map (fun f => (pathJoin sd f, pathJoin md f))
    ∧ (move_movies env fs md sd st).2 = .ok ()
    ∧ execute envInc cfgInc
        = ⟨⟨[], [("/scan/Inception.2010.mkv", "/movies/Inception.2010.mkv")]⟩,
           [], .ok ()⟩ := by
  obtain ⟨h1, h2⟩ := move_movies_ok env fs md sd st h
  exact ⟨h1, h2, by decide⟩

/-- Witness for C7: one movie file moved flat into the movie root. -/
theorem movies_moved_flat_w :
    (move_movies envTrivial ["Inception.2010.mkv"] "/movies" "/scan" {}).1.moves
        = ({} : RunState).moves
            ++ ["Inception.2010.mkv"].map (fun f => (pathJoin "/scan" f, pathJoin "/movies" f))
    ∧ (move_movies envTrivial ["Inception.2010.mkv"] "/movies" "/scan" {}).2 = .ok ()
    ∧ execute envInc cfgInc
        = ⟨⟨[], [("/scan/Inception.2010.mkv", "/movies/Inception.2010.mkv")]⟩,
           [], .ok ()⟩ :=
  movies_moved_flat envTrivial ["Inception.2010.mkv"] "/movies" "/scan" {}
    (fun _ _ => rfl)

/-- C8 counterexample: with the spec's replacement string `$1.renamed.mkv`,
the relocator's rename substitution leaves `$1` literal — Python substitution
templates use backslash group references, not `$` — so the output is
`$1.renamed.mkv`, not `Show.S01E01.renamed.mkv` as the claim states. -/
theorem rename_dollar_replacement_literal_cex :
    destFileName ruleDollar "Show.S01E01.mkv" = "$1.renamed.mkv"
    ∧ destFileName ruleDollar "Show.S01E01.mkv" ≠ "Show.S01E01.renamed.mkv" := by
  exact ⟨by decide, by decide⟩

/-- C8 amended: with the backslash group-reference syntax `\1.renamed.mkv`
that Python's `re.sub` actually interprets, a rule with search pattern
`(.*)\.mkv` renames `Show.S01E01.mkv` to `Show.S01E01.renamed.mkv`. -/
theorem rename_backref_round_trip :
    destFileName ruleBackref "Show.S01E01.mkv" = "Show.S01E01.renamed.mkv" := by
  decide

/-- C9: the destination-directory-ensure step is idempotent — after a first
invocation returned the directory state `d1`, invoking it again on the same
path yields no error and the unchanged state `d1`, and duplicate-freeness of
the directory list is preserved. -/
theorem ensure_dest_idempotent (dirs : List String) (p : String)
    (d1 : List String) (h : ensure_dest dirs p = .ok d1) :
    ensure_dest d1 p = .ok d1 ∧ (dirs.Nodup → d1.Nodup) := by
  obtain ⟨d2, h2, hmem, hnd⟩ := ensure_dest_ok dirs p
  rw [h] at h2
  cases Except.ok.inj h2
  refine ⟨?_, hnd⟩
  unfold ensure_dest
  rw [if_pos (by simpa [path_exists] using hmem)]

/-- Witness for C9: creating `/series/B` in an empty filesystem and ensuring
it again. -/
theorem ensure_dest_idempotent_w :
    ensure_dest ["/", "/series", "/series/B"] "/series/B"
        = .ok ["/", "/series", "/series/B"]
    ∧ (([] : List String).Nodup → (["/", "/series", "/series/B"] : List String).Nodup) :=
  ensure_dest_idempotent [] "/series/B" ["/", "/series", "/series/B"] (by decide)

/-- C3 counterexample: a configuration whose only rule lacks `name` makes
configuration loading fail with `KeyError`, not with the `ConfigurationError`
kind the claim names — `validate_series` raises `KeyError` for malformed
rules, `ConfigurationError` is reserved for missing directories. -/
theorem validate_missing_name_not_configuration_error :
    process_configs {} cfgBadRule = .error (.keyError "name")
    ∧ ∀ msg, process_configs {} cfgBadRule ≠ .error (.configurationError msg) := by
  have h1 : process_configs {} cfgBadRule = .error (.keyError "name") := by decide
  refine ⟨h1, ?_⟩
  intro msg h
  rw [h1] at h
  exact PyErr.noConfusion (Except.error.inj h)

/-- C3 amended: a configuration in which some series rule lacks `name` or
lacks `regex` makes loading fail eagerly with a `KeyError` naming the missing
key (not a ConfigurationError), before any file is touched: the whole run
aborts with an untouched filesystem state, no move and no notification,
rather than the rule being silently skipped at match time. -/
theorem malformed_rule_key_error_aborts_eagerly (env : Env) (a : InitArgs)
    (cfg : RawConfig) (rules : List RawShow) (hs : cfg.series = some rules)
    (hbad : ∃ r ∈ rules, r.name = none ∨ r.regex = none) :
    (∃ k, validate_series rules = .error (.keyError k) ∧ (k = "name" ∨ k = "regex"))
    ∧ ∃ e, runCopyMedia env a cfg = ⟨{}, [], .error (.pyErr e)⟩ := by
  obtain ⟨k, hk, hor⟩ := validate_series_error_of_malformed rules hbad
  refine ⟨⟨k, hk, hor⟩, ?_⟩
  have hpc : ∃ e, process_configs a cfg = .error e := by
    simp only [process_configs]
    by_cases h1 : ¬ truthy a.file = true
        ∧ ¬ truthy (if truthy a.file then a.scandir
            else resolveOpt a.scandir cfg.scanDir) = true
    · rw [if_pos h1]; exact ⟨_, rfl⟩
    · rw [if_neg h1]
      by_cases h2 : ¬ truthy (resolveOpt a.seriesdir cfg.seriesDir) = true
      · rw [if_pos h2]; exact ⟨_, rfl⟩
      · rw [if_neg h2]
        by_cases h3 : ¬ truthy (resolveOpt a.moviedir cfg.movieDir) = true
        · rw [if_pos h3]; exact ⟨_, rfl⟩
        · rw [if_neg h3]
          rw [hs]
          simp [hk]
  obtain ⟨e, he⟩ := hpc
  refine ⟨e, ?_⟩
  unfold runCopyMedia
  rw [he]

/-- Witness for C3's amended claim: the malformed single-rule configuration
aborts the whole pipeline before any filesystem effect. -/
theorem malformed_rule_key_error_aborts_eagerly_w :
    (∃ k, validate_series [{ regex := some ".*" }] = .error (.keyError k)
        ∧ (k = "name" ∨ k = "regex"))
    ∧ ∃ e, runCopyMedia envTrivial {} cfgBadRule = ⟨{}, [], .error (.pyErr e)⟩ :=
  malformed_rule_key_error_aborts_eagerly envTrivial {} cfgBadRule
    [{ regex := some ".*" }] rfl
    ⟨{ regex := some ".*" }, List.mem_singleton.mpr rfl, Or.inl rfl⟩

/-- C4 counterexample: in a two-file batch where the first move fails, the
exception propagates out of `move_series` — there is no per-file handler — so
the second file is never relocated: the claim that a single failure does not
abort the remaining batch is false on the code. -/
theorem move_failure_aborts_remaining_cex :
    (move_series envFail1 [("f1.mkv", ruleB), ("f2.mkv", ruleB)] "/series" "/scan" {}).2
        = .error (.moveFailed "/scan/f1.mkv" "/series/B/f1.mkv")
    ∧ (move_series envFail1 [("f1.mkv", ruleB), ("f2.mkv", ruleB)] "/series" "/scan" {}).1.moves
        = [] := by
  exact ⟨by decide, by decide⟩

/-- C4 amended: a single file's move failure aborts the processing of the
remaining files — the exception propagates out of `move_series` and exactly
the moves preceding the failing one have been performed; files after the
failure are left untouched. -/
theorem move_failure_aborts_remaining (env : Env)
    (pre : List (String × ShowEntry)) (q : String × ShowEntry)
    (post : List (String × ShowEntry)) (md sd : String) (st : RunState)
    (hpre : ∀ p ∈ pre, env.moveOk (seriesSrc sd p) (seriesDst md p) = true)
    (hq : env.moveOk (seriesSrc sd q) (seriesDst md q) = false) :
    (move_series env (pre ++ q :: post) md sd st).2
        = .error (.moveFailed (seriesSrc sd q) (seriesDst md q))
    ∧ (move_series env (pre ++ q :: post) md sd st).1.moves
        = st.moves ++ pre.map (fun p => (seriesSrc sd p, seriesDst md p)) :=
  moveSeriesLoop_abort env pre q post md sd st [] hpre hq

/-- Witness for C4's amended claim: `f1` succeeds, `f2` fails, `f3` is never
attempted. -/
theorem move_failure_aborts_remaining_w :
    (move_series envFail2
        ([("f1.mkv", ruleB)] ++ ("f2.mkv", ruleB) :: [("f3.mkv", ruleB)])
        "/series" "/scan" {}).2
      = .error (.moveFailed (seriesSrc "/scan" ("f2.mkv", ruleB))
          (seriesDst "/series" ("f2.mkv", ruleB)))
    ∧ (move_series envFail2
        ([("f1.mkv", ruleB)] ++ ("f2.mkv", ruleB) :: [("f3.mkv", ruleB)])
        "/series" "/scan" {}).1.moves
      = ({} : RunState).moves ++ [("f1.mkv", ruleB)].map
          (fun p => (seriesSrc "/scan" p, seriesDst "/series" p)) :=
  move_failure_aborts_remaining envFail2 [("f1.mkv", ruleB)] ("f2.mkv", ruleB)
    [("f3.mkv", ruleB)] "/series" "/scan" {} (by decide) (by decide)

/-- C5 counterexample: with the movie-lookup collaborator raising on every
call and a scan finding one unmatched file, the exception propagates out of
`execute` and the run crashes — it is not treated as a "not a movie" verdict
as the claim states. -/
theorem lookup_exception_crashes_run_cex :
    execute envBoom cfgInc = ⟨{}, [], .error (.lookupError "network error")⟩
    ∧ (execute envBoom cfgInc).result ≠ .ok () := by
  exact ⟨by decide, by decide⟩

/-- C5 amended: when no series rule matched, a movie root is configured and
some file is unmatched, an exception raised by the `is_movie` collaborator
propagates out of `execute` — aborting the run with no move performed — while
only an explicit `true` verdict (never a failure) routes a file into the
movie list that `move_movies` relocates. -/
theorem lookup_exception_propagates (env : Env) (c : CopyMediaCfg) (md : String)
    (hm : (match_files (candidateFiles env c) c.series).1 = [])
    (hmv : c.moviedir = some md)
    (hnm : (match_files (candidateFiles env c) c.series).2 ≠ []) :
    (∀ msg, filterMovies env (candidateFiles env c) = .error msg →
        execute env c = ⟨{}, [], .error (.lookupError msg)⟩)
    ∧ (∀ mfs, filterMovies env (candidateFiles env c) = .ok mfs →
        ∀ f, f ∈ mfs ↔ f ∈ candidateFiles env c ∧ env.isMovie f = .ok true) := by
  constructor
  · intro msg hmsg
    simp only [execute]
    rw [hm, hmv, hmsg]
    simp only [List.isEmpty_nil, not_true_eq_false, if_false]
    rw [if_pos (by simpa [List.isEmpty_iff] using hnm)]
  · intro mfs hok f
    exact filterMovies_ok_mem env (candidateFiles env c) mfs hok f

/-- Witness for C5's amended claim: with the always-raising collaborator of
the counterexample scenario. -/
theorem lookup_exception_propagates_w :
    execute envBoom cfgInc = ⟨{}, [], .error (.lookupError "network error")⟩ :=
  (lookup_exception_propagates envBoom cfgInc "/movies" (by decide) rfl
    (by decide)).1 "network error" (by decide)

theorem move_series_src (env : Env) (ms : List (String × ShowEntry))
    (md sd : String) (st : RunState) (m : String × String)
    (hm : m ∈ (move_series env ms md sd st).1.moves) :
    m ∈ st.moves ∨ ∃ q ∈ ms, m.1 = pathJoin sd q.1 :=
  moveSeriesLoop_src env ms md sd st [] m hm

theorem execute_moves_src (env : Env) (c : CopyMediaCfg) :
    ∀ m ∈ (execute env c).state.moves,
      ∃ f ∈ candidateFiles env c, m.1 = pathJoin c.scandir f := by
  intro m hm
  simp only [execute] at hm
  split at hm
  · have hser : m ∈ (move_series env
        (match_files (candidateFiles env c) c.series).1 c.seriesdir c.scandir
        {}).1.moves →
        ∃ f ∈ candidateFiles env c, m.1 = pathJoin c.scandir f := by
      intro hm2
      rcases move_series_src env _ _ _ _ m hm2 with h1 | ⟨q, hq, hsrc⟩
      · cases h1
      · exact ⟨q.1, mem_match_files_fst _ _ q hq, hsrc⟩
    split at hm
    · exact hser hm
    · split at hm
      · exact hser hm
      · exact hser hm
  · split at hm
    · split at hm
      · split at hm
        · cases hm
        · rename_i mfs heq
          rcases move_movies_src env _ _ _ _ m hm with h1 | ⟨f, hf, hsrc⟩
          · cases h1
          · exact ⟨f, ((filterMovies_ok_mem env _ mfs heq f).mp hf).1, hsrc⟩
      · cases hm
    · cases hm

/-- C10 (implicit): when a single explicit file path is given, only the
final path component of that path matters — `execute` behaves identically for
any path with the same basename — and every move the run performs reads its
source from `join(scandir, basename(file))`: the directory component of the
given path is discarded and never used as the move source. -/
theorem single_file_moves_from_scandir (env : Env) (c : CopyMediaCfg)
    (p : String) (h : c.file = some p) :
    execute env c = execute env { c with file := some (basename p) }
    ∧ ∀ m ∈ (execute env c).state.moves,
        m.1 = pathJoin c.scandir (basename p) := by
  have hc : candidateFiles env c = [basename p] := by
    simp [candidateFiles, h, basename]
  have hc2 : candidateFiles env { c with file := some (basename p) }
      = [basename p] := by
    show [basename (basename p)] = [basename p]
    rw [basename_idem]
  constructor
  · simp only [execute, hc, hc2]
  · intro m hm
    obtain ⟨f, hf, hsrc⟩ := execute_moves_src env c m hm
    rw [hc] at hf
    rw [List.mem_singleton.mp hf] at hsrc
    exact hsrc

/-- Witness for C10: the run on `/downloads/sub/ShowB.S02E03.mkv` equals the
run on the bare basename. -/
theorem single_file_moves_from_scandir_w :
    execute envTrivial cfgSingle
        = execute envTrivial
            { cfgSingle with
              file := some (basename "/downloads/sub/ShowB.S02E03.mkv") } :=
  (single_file_moves_from_scandir envTrivial cfgSingle
    "/downloads/sub/ShowB.S02E03.mkv" rfl).1

end CopyAnime
